import Mathlib

/-!
# cogeo-tiler: verification of the tile request pipeline

Shallow embedding of the request-processing logic of the cogeo-tiler
repository (`handler.py`, `utils.py`, `common.py`): parameter validation,
band-index parsing, tile post-processing (per-band linear rescale under a
validity mask), default-extension choice, extension-to-driver dispatch, the
raw-array serialization path, the WMTS query-string templating, and the
point-sampling bounds check.

Numeric samples are modelled as rationals (`ℚ`); the Python/numpy float
computations of `postprocess` are pure rational arithmetic followed by a
C-style truncating cast to `uint8`.  A pixel tile is a list of bands, each
band a list of rows, each row a list of samples, mirroring the numpy array
of shape `(band, row, col)`; the validity mask is a list of rows of
booleans with the same spatial extent.
-/

namespace CogeoTiler

/-! ## Numeric core: truncating casts and the rescale arithmetic -/

/-- Truncation of a rational toward zero, as an integer: this is what
`ndarray.astype` does when casting a float value to an integer dtype. -/
def truncInt (q : ℚ) : ℤ :=
  Int.tdiv q.num (q.den : ℤ)

/-- Cast a rational to an unsigned 8-bit sample, modelling
`astype(numpy.uint8)`: truncate toward zero, then wrap modulo 256. -/
def toUInt8 (q : ℚ) : ℕ :=
  (truncInt q % 256).toNat

/-- Model of `numpy.clip(v, lo, hi)`, which is `minimum(maximum(v, lo), hi)`. -/
def clip (v lo hi : ℚ) : ℚ :=
  min (max v lo) hi

/-- Model of `rio_tiler.utils.linear_rescale(v, in_range=(lo, hi),
out_range=[0, 255])`, the external collaborator called by `postprocess`;
its body computes `(numpy.clip(v, lo, hi) - lo) / (hi - lo) * (255 - 0) + 0`. -/
def linear_rescale (v : ℚ) (pr : ℚ × ℚ) : ℚ :=
  (clip v pr.1 pr.2 - pr.1) / (pr.2 - pr.1) * 255

/-- Rescaled pixel value as the specification words it: the value linearly
mapped from `[lo, hi]` to `[0, 255]` and clamped to that range. -/
def specRescale (pr : ℚ × ℚ) (v : ℚ) : ℚ :=
  min (max ((v - pr.1) * 255 / (pr.2 - pr.1)) 0) 255

/-! ## Post-processing (`utils.postprocess` and the identical
`handler._postprocess`), rescale branch

The comma-separated `rescale` string is given here already split and
numerically parsed, as the list of values produced by
`list(map(float, rescale.split(",")))`; decimal-literal parsing itself is
done by the Python float constructor.  The `color_formula` branch delegates
to the external rio-color operation grammar and is outside the verified
claims. -/

/-- Model of `_chunks(rescale_arr, 2)` restricted to even-length input:
successive pairs, in order.  (On odd-length input the Python code would
produce a trailing 1-element chunk on which `linear_rescale` raises; the
theorems below assume an even number of values.) -/
def chunkPairs : List ℚ → List (ℚ × ℚ)
  | a :: b :: rest => (a, b) :: chunkPairs rest
  | _ => []

/-- Model of the pair-count check: if the number of parsed pairs differs
from the band count, broadcast the first pair to every band
(`rescale_arr = ((rescale_arr[0]),) * tile.shape[0]`). -/
def parseRescale (vals : List ℚ) (nbands : ℕ) : List (ℚ × ℚ) :=
  let ps := chunkPairs vals
  if ps.length = nbands then ps else List.replicate nbands (ps.headD (0, 0))

/-- Per-pixel body of `numpy.where(mask, linear_rescale(...), 0)` followed by
the `uint8` cast. -/
def pixelRescale (pr : ℚ × ℚ) (v : ℚ) (m : Bool) : ℕ :=
  if m then toUInt8 (linear_rescale v pr) else 0

/-- Tile types: a band is rows of rational samples, a tile is a list of
bands; the mask is rows of booleans. -/
abbrev Band := List (List ℚ)

/-- Pixel tile: list of bands. -/
abbrev Tile := List Band

/-- Validity mask: rows of booleans, same spatial extent as each band. -/
abbrev Mask := List (List Bool)

/-- One band of the rescale loop body:
`tile[bdx] = numpy.where(mask, linear_rescale(tile[bdx], ...), 0)`
elementwise over the two spatial dimensions. -/
def rescaleBand (pr : ℚ × ℚ) (band : Band) (mask : Mask) : List (List ℕ) :=
  List.zipWith (List.zipWith (pixelRescale pr)) band mask

/-- The rescale branch of `postprocess`: parse the value list into pairs,
broadcast on count mismatch, rescale every band under the mask, cast to
`uint8`. -/
def postprocessRescale (vals : List ℚ) (tile : Tile) (mask : Mask) :
    List (List (List ℕ)) :=
  List.zipWith (fun band pr => rescaleBand pr band mask) tile
    (parseRescale vals tile.length)

/-- Reinterpret a `uint8` tile as rational samples (the dtype change
performed by `tile.astype(numpy.uint8)` viewed back inside the model). -/
def castTile (t : List (List (List ℕ))) : Tile :=
  t.map (fun band => band.map (fun row => row.map (Nat.cast : ℕ → ℚ)))

/-- Model of `_postprocess(tile, mask, rescale, ...)` on the data reaching
the encoder: with no rescale the tile passes through unchanged, otherwise
the rescale branch runs.  (The optional color-formula pass is external.) -/
def postprocessOpt (rescaleVals : Option (List ℚ)) (tile : Tile) (mask : Mask) :
    Tile :=
  match rescaleVals with
  | none => tile
  | some vals => castTile (postprocessRescale vals tile mask)

/-! ## Band-index parsing

`tuple(int(s) for s in re.findall(r"\d+", indexes))`: every maximal run of
decimal digits in the string, in order, converted to its numeric value. -/

/-- Numeric value of a digit character. -/
def digitVal (c : Char) : ℕ :=
  c.toNat - 48

/-- Scanner for maximal digit runs: the second argument carries the value
of the digit run currently being read, if any. -/
def findIndexes : List Char → Option ℕ → List ℕ
  | [], none => []
  | [], some n => [n]
  | c :: rest, none =>
      if c.isDigit then findIndexes rest (some (digitVal c))
      else findIndexes rest none
  | c :: rest, some n =>
      if c.isDigit then findIndexes rest (some (n * 10 + digitVal c))
      else n :: findIndexes rest none

/-- Model of `tuple(int(s) for s in re.findall(r"\d+", indexes))`. -/
def parseIndexes (s : String) : List ℕ :=
  findIndexes s.data none

/-- The decimal digit characters. -/
def digitChar (d : ℕ) : Char :=
  match d with
  | 0 => Char.ofNat 48
  | 1 => Char.ofNat 49
  | 2 => Char.ofNat 50
  | 3 => Char.ofNat 51
  | 4 => Char.ofNat 52
  | 5 => Char.ofNat 53
  | 6 => Char.ofNat 54
  | 7 => Char.ofNat 55
  | 8 => Char.ofNat 56
  | _ => Char.ofNat 57

/-- Standard decimal rendering of a natural number (most significant digit
first), used to state that index parsing preserves order and duplicates. -/
def renderNatAux (n : ℕ) (acc : List Char) : List Char :=
  if n < 10 then digitChar n :: acc
  else renderNatAux (n / 10) (digitChar (n % 10) :: acc)
termination_by n
decreasing_by exact Nat.div_lt_self (by omega) (by omega)

/-- Decimal rendering of a natural number. -/
def renderNat (n : ℕ) : List Char :=
  renderNatAux n []

/-- Comma-join of rendered chunks, as in an `indexes=1,2,3` query value. -/
def joinComma : List (List Char) → List Char
  | [] => []
  | [x] => x
  | x :: y :: t => x ++ Char.ofNat 44 :: joinComma (y :: t)

/-- The canonical comma-separated rendering of a list of band indices. -/
def renderIndexes (l : List ℕ) : String :=
  ⟨joinComma (l.map renderNat)⟩

/-! ## Request validation in `tile_handler` -/

/-- Python truthiness of an optional string parameter: `None` and the empty
string are falsy. -/
def truthy : Option String → Bool
  | none => false
  | some s => !(s == "")

/-- The error cases of the handlers, by identity.  In the source all are
raised as `TilerError` with the messages
`Cannot pass indexes and expression`, `Missing url parameter` (with the
word url quoted), and `Point is outside the raster bounds`. -/
inductive TilerError where
  | conflictingSelector : TilerError
  | missingUrl : TilerError
  | pointOutOfBounds : TilerError
deriving DecidableEq, Repr

/-- The call made against the raster-decode collaborator once validation
passes: either the expression path (`rio_tiler` `expression`) or the
index-selection path (`cogTiler.tile`), with the band indexes passed along
(`none` meaning all source bands). -/
inductive FetchPlan where
  | exprCall (e : String) (tilesize : ℕ) : FetchPlan
  | tileCall (indexes : Option (List ℕ)) (tilesize : ℕ) : FetchPlan
deriving DecidableEq, Repr

/-- The validation and dispatch prefix of `tile_handler` (lines 293 to 329):
conflicting-selector check, missing-url check, index parsing, tile size
derivation, and the choice of collaborator call.  Raster I/O happens only
inside the returned `FetchPlan`, so an error value is raised before any
raster I/O. -/
def tile_handler_validate (scale : ℕ) (url indexes expr : Option String) :
    Except TilerError FetchPlan :=
  if truthy indexes && truthy expr then .error .conflictingSelector
  else if !truthy url then .error .missingUrl
  else
    let tilesize := scale * 256
    match expr with
    | some e => .ok (.exprCall e tilesize)
    | none => .ok (.tileCall (indexes.map parseIndexes) tilesize)

/-! ## Point handler bounds check -/

/-- Raster bounding box, in the order rasterio reports it:
`bounds[0] = left`, `bounds[1] = bottom`, `bounds[2] = right`,
`bounds[3] = top`. -/
structure Bounds where
  left : ℚ
  bottom : ℚ
  right : ℚ
  top : ℚ

/-- The bounds check of `point_handler`: the lon/lat pair is first pushed
through the coordinate transform into the raster system (`warp.transform`,
passed here as a function parameter), then the transformed point must lie
strictly inside the bounding box on both axes, else the request errors. -/
def point_handler_check (b : Bounds) (transform : ℚ × ℚ → ℚ × ℚ)
    (lon lat : ℚ) (values : List ℚ) : Except TilerError (List ℚ) :=
  let p := transform (lon, lat)
  if b.left < p.1 ∧ p.1 < b.right ∧ b.bottom < p.2 ∧ p.2 < b.top then
    .ok values
  else .error .pointOutOfBounds

/-! ## WMTS query-string templating -/

/-- Removal of the reserved QGIS parameters:
`kwargs.pop("SERVICE", None); kwargs.pop("REQUEST", None)`. -/
def removeReserved (kwargs : List (String × String)) : List (String × String) :=
  kwargs.filter (fun kv => (kv.1 != "SERVICE") && (kv.1 != "REQUEST"))

/-- Model of `urllib.parse.urlencode(list(kwargs.items()))`: key=value
chunks joined by ampersands.  (Percent-escaping of characters inside keys
and values is performed by urllib and is immaterial to the claims proved
here, which quantify over arbitrary strings.) -/
def urlencodeModel (ps : List (String × String)) : String :=
  String.intercalate "&" (ps.map (fun kv => kv.1 ++ "=" ++ kv.2))

/-- Character-level body of `query_string.replace("&", "&amp;")`. -/
def escapeAmpChars : List Char → List Char
  | [] => []
  | c :: rest =>
      if c == '&' then
        '&' :: 'a' :: 'm' :: 'p' :: ';' :: escapeAmpChars rest
      else c :: escapeAmpChars rest

/-- Model of `query_string.replace("&", "&amp;")`. -/
def escapeAmp (s : String) : String :=
  ⟨escapeAmpChars s.data⟩

/-- The query string embedded into the WMTS capabilities template
(lines 211 to 218 of the handler): reserved parameters removed, the url
parameter appended (`str(None)` when absent), url-encoded, ampersands
XML-escaped. -/
def wmts_query_string (url : Option String) (kwargs : List (String × String)) :
    String :=
  escapeAmp (urlencodeModel (removeReserved kwargs ++ [("url", url.getD "None")]))

/-- Checks that every ampersand occurring in a character list is the start
of the XML entity `&amp;`. -/
def ampEscaped : List Char → Bool
  | [] => true
  | c :: rest =>
      if c == '&' then
        match rest with
        | a :: m :: p :: s :: rest2 =>
            if a == 'a' && m == 'm' && p == 'p' && s == ';' then ampEscaped rest2
            else false
        | _ => false
      else ampEscaped rest

/-! ## Format encoding dispatch (`tile_handler`, lines 331 to 364) -/

/-- Python truthiness of the optional extension (`if not ext:`). -/
def extFalsy : Option String → Bool
  | none => true
  | some s => s == ""

/-- Full-coverage test `mask.all()` over every entry of the mask. -/
def maskAll (m : Mask) : Bool :=
  m.all (fun row => row.all id)

/-- Web-mercator bounds of a tile, `mercantile.xy_bounds(Tile(x, y, z))`,
expressed in units of the web-mercator world size (the float code
multiplies each coordinate by `2 * pi * 6378137`, a fixed scalar): the
world spans `[-1/2, 1/2]` on both axes, x grows east, y grows south. -/
structure MercBounds where
  w : ℚ
  s : ℚ
  e : ℚ
  n : ℚ

/-- Bounds of tile `(x, y)` at zoom `z` under the standard scheme. -/
def xy_bounds (z x y : ℕ) : MercBounds :=
  { w := (x : ℚ) / 2 ^ z - 1 / 2
    s := 1 / 2 - ((y : ℚ) + 1) / 2 ^ z
    e := ((x : ℚ) + 1) / 2 ^ z - 1 / 2
    n := 1 / 2 - (y : ℚ) / 2 ^ z }

/-- Affine transform coefficients in the order rasterio stores them. -/
structure Affine where
  a : ℚ
  b : ℚ
  c : ℚ
  d : ℚ
  e : ℚ
  f : ℚ
deriving DecidableEq

/-- Model of `rasterio.transform.from_bounds(west, south, east, north,
width, height)`. -/
def from_bounds (west south east north : ℚ) (width height : ℕ) : Affine :=
  { a := (east - west) / (width : ℚ)
    b := 0
    c := west
    d := 0
    e := (south - north) / (height : ℚ)
    f := north }

/-- Geo-referencing options attached to GTiff output: the fixed CRS and the
bounds-derived transform. -/
structure GeoTiffOptions where
  crs : String
  transform : Affine

/-- Row count of the tile array, `rtile.shape[1]`. -/
def dim1 (t : Tile) : ℕ :=
  (t.headD []).length

/-- Column count of the tile array, `rtile.shape[2]`. -/
def dim2 (t : Tile) : ℕ :=
  ((t.headD []).headD []).length

/-! ## Raw-array (`npy`) serialization

`numpy.save(sio, (rtile, mask))` writes the pair into a single binary
payload and `numpy.load` reads it back.  The payload is modelled as a flat
list of naturals: integers are coded by sign-folding, rationals as
numerator/denominator words, and each list level is length-prefixed.  The
decoders below invert the encoders exactly, which is the documented
contract of the numpy save/load pair. -/

/-- Sign-folding code of an integer as a natural. -/
def intCode (z : ℤ) : ℕ :=
  if 0 ≤ z then 2 * z.toNat else 2 * (-z).toNat - 1

/-- Inverse of `intCode`. -/
def intDecode (n : ℕ) : ℤ :=
  if n % 2 = 0 then (n / 2 : ℕ) else -((n + 1) / 2 : ℕ)

/-- Two-word code of a rational sample. -/
def ratCode (q : ℚ) : List ℕ :=
  [intCode q.num, q.den]

/-- Reads back one rational sample. -/
def ratDecode : List ℕ → Option (ℚ × List ℕ)
  | a :: b :: rest => some ((intDecode a : ℚ) / (b : ℚ), rest)
  | _ => none

/-- One-word code of a mask entry. -/
def boolCode (b : Bool) : List ℕ :=
  [if b then 1 else 0]

/-- Reads back one mask entry. -/
def boolDecode : List ℕ → Option (Bool × List ℕ)
  | a :: rest => some (a == 1, rest)
  | _ => none

/-- Length-prefixed encoding of a list, given an element encoder. -/
def listCode (enc : α → List ℕ) (l : List α) : List ℕ :=
  l.length :: l.flatMap enc

/-- Reads back `n` elements with the given element decoder. -/
def decodeCount (dec : List ℕ → Option (α × List ℕ)) :
    ℕ → List ℕ → Option (List α × List ℕ)
  | 0, s => some ([], s)
  | n + 1, s =>
      match dec s with
      | some (a, s1) =>
          match decodeCount dec n s1 with
          | some (as, s2) => some (a :: as, s2)
          | none => none
      | none => none

/-- Reads back a length-prefixed list. -/
def listDecode (dec : List ℕ → Option (α × List ℕ)) :
    List ℕ → Option (List α × List ℕ)
  | [] => none
  | n :: s => decodeCount dec n s

/-- Serialized form of the `(rtile, mask)` pair, the body of the
`application/x-binary` response. -/
def npySave (t : Tile) (m : Mask) : List ℕ :=
  listCode (listCode (listCode ratCode)) t ++ listCode (listCode boolCode) m

/-- Deserializer for the raw-array payload. -/
def npyLoad (s : List ℕ) : Option (Tile × Mask) :=
  match listDecode (listDecode (listDecode ratDecode)) s with
  | some (t, s1) =>
      match listDecode (listDecode boolDecode) s1 with
      | some (m, s2) => if s2 = [] then some (t, m) else none
      | none => none
  | none => none

/-! ## The encoder tail of `tile_handler` -/

/-- Response payload: either the raw serialized array pair or an image
encode call against `array_to_image` with a driver name and optional
geo-referencing options (profile-table encode options and colormap
injection are external encoder inputs and carry no information needed by
the claims). -/
inductive TilePayload where
  | npyPayload (bytes : List ℕ) : TilePayload
  | imagePayload (driver : String) (rtile : Tile) (mask : Mask)
      (geo : Option GeoTiffOptions) : TilePayload

/-- The triple returned by `tile_handler`. -/
structure TileResponse where
  status : String
  mimetype : String
  payload : TilePayload

/-- The static extension-to-driver table of `common.py`. -/
def drivers : List (String × String) :=
  [("jpg", "JPEG"), ("png", "PNG"), ("pngraw", "PNG"), ("tif", "GTiff"),
   ("webp", "WEBP")]

/-- The static extension-to-MIME table of `common.py`. -/
def mimetypes : List (String × String) :=
  [("png", "image/png"), ("pngraw", "image/png"),
   ("npy", "application/x-binary"), ("tif", "image/tiff"),
   ("jpg", "image/jpg"), ("webp", "image/webp")]

/-- The pipeline tail of `tile_handler` (lines 331 to 364): default
extension from the decode-time mask, post-processing, driver selection,
GTiff geo-referencing, npy serialization, MIME type. -/
def tile_pipeline (z x y : ℕ) (ext0 : Option String)
    (rescaleVals : Option (List ℚ)) (tile : Tile) (mask : Mask) :
    TileResponse :=
  let ext1 := if extFalsy ext0 then (if maskAll mask then "jpg" else "png")
              else ext0.getD ""
  let rtile := postprocessOpt rescaleVals tile mask
  let driver0 := if ext1 == "jpg" then "jpeg" else ext1
  if ext1 == "tif" then
    let mb := xy_bounds z x y
    let tr := from_bounds mb.w mb.s mb.e mb.n (dim1 rtile) (dim2 rtile)
    { status := "OK", mimetype := "image/tiff"
      payload := .imagePayload "GTiff" rtile mask
        (some { crs := "EPSG:3857", transform := tr }) }
  else if ext1 == "npy" then
    { status := "OK", mimetype := "application/x-binary"
      payload := .npyPayload (npySave rtile mask) }
  else
    { status := "OK", mimetype := "image/" ++ ext1
      payload := .imagePayload driver0 rtile mask none }

/-- The bytes of an npy response. -/
def npyBytesOf (r : TileResponse) : List ℕ :=
  match r.payload with
  | .npyPayload bytes => bytes
  | .imagePayload _ _ _ _ => []

/-- The driver of an image response. -/
def driverOf (r : TileResponse) : Option String :=
  match r.payload with
  | .npyPayload _ => none
  | .imagePayload driver _ _ _ => some driver

end CogeoTiler

namespace CogeoTiler

/-! ## Theorems -/

/-- Every ampersand produced by the replace step starts an `&amp;` entity. -/
theorem ampEscaped_escapeAmpChars : ∀ l : List Char, ampEscaped (escapeAmpChars l) = true := by
  intro l
  induction l with
  | nil => rfl
  | cons c rest ih =>
      cases hc : (c == '&') with
      | true => simp [escapeAmpChars, hc, ampEscaped, ih]
      | false =>
          simp only [escapeAmpChars, hc, Bool.false_eq_true, if_false]
          rw [ampEscaped.eq_def]
          simp [hc, ih]

/-- C1: supplying both a non-empty index list and a non-empty expression
fails with the conflicting-selector error before any fetch plan (hence any
raster I/O) is produced; supplying neither (with a valid url) dispatches to
the index-selection path with `indexes = none`, selecting all source bands. -/
theorem C1_selector_exclusivity (scale : ℕ) (url indexes expr : Option String) :
    (truthy indexes = true → truthy expr = true →
      tile_handler_validate scale url indexes expr = .error .conflictingSelector) ∧
    (indexes = none → expr = none → truthy url = true →
      tile_handler_validate scale url indexes expr =
        .ok (.tileCall none (scale * 256))) := by
  constructor
  · intro h1 h2
    simp [tile_handler_validate, h1, h2]
  · rintro rfl rfl hurl
    simp [tile_handler_validate, hurl, show truthy none = false from rfl]

/-- Witness for C1 at concrete requests. -/
theorem C1_selector_exclusivity_witness :
    tile_handler_validate 1 (some "file.tif") (some "1") (some "b1") =
      .error .conflictingSelector ∧
    tile_handler_validate 1 (some "file.tif") none none =
      .ok (.tileCall none (1 * 256)) :=
  ⟨(C1_selector_exclusivity 1 (some "file.tif") (some "1") (some "b1")).1 rfl rfl,
   (C1_selector_exclusivity 1 (some "file.tif") none none).2 rfl rfl rfl⟩

/-- C10: the conflicting-selector check runs before the missing-url check:
with both selectors supplied the error is `conflictingSelector` even when
the url is absent, and `missingUrl` is raised exactly when the url is falsy
and the selectors do not conflict. -/
theorem C10_error_precedence (scale : ℕ) (url indexes expr : Option String) :
    ((truthy indexes && truthy expr) = true →
      tile_handler_validate scale url indexes expr = .error .conflictingSelector) ∧
    (tile_handler_validate scale url indexes expr = .error .missingUrl ↔
      (truthy url = false ∧ (truthy indexes && truthy expr) = false)) := by
  constructor
  · intro h
    simp [tile_handler_validate, h]
  · cases hc : (truthy indexes && truthy expr) with
    | true =>
        have h12 := hc
        rw [Bool.and_eq_true] at h12
        obtain ⟨h1, h2⟩ := h12
        simp [tile_handler_validate, h1, h2, hc]
    | false =>
        have hcond : ¬(truthy indexes = true ∧ truthy expr = true) := by
          rw [← Bool.and_eq_true, hc]
          exact Bool.false_ne_true
        cases hu : truthy url with
        | true => cases expr <;> simp [tile_handler_validate, hcond, hu]
        | false => simp [tile_handler_validate, hcond, hu, hc]

/-- Witness for C10: both selectors and no url gives the conflict error,
no url alone gives the missing-url error. -/
theorem C10_error_precedence_witness :
    tile_handler_validate 1 none (some "1") (some "b1") =
      .error .conflictingSelector ∧
    tile_handler_validate 1 none none none = .error .missingUrl :=
  ⟨(C10_error_precedence 1 none (some "1") (some "b1")).1 rfl,
   (C10_error_precedence 1 none none none).2.mpr ⟨rfl, rfl⟩⟩

/-- C5: the point request succeeds exactly when the transformed coordinate
lies strictly inside the bounding box on both axes; touching any bound is
rejected with the out-of-bounds error rather than an empty result. -/
theorem C5_point_strict_interior (b : Bounds) (tr : ℚ × ℚ → ℚ × ℚ)
    (lon lat : ℚ) (vs : List ℚ) :
    (point_handler_check b tr lon lat vs = .ok vs ↔
      (b.left < (tr (lon, lat)).1 ∧ (tr (lon, lat)).1 < b.right ∧
       b.bottom < (tr (lon, lat)).2 ∧ (tr (lon, lat)).2 < b.top)) ∧
    (((tr (lon, lat)).1 = b.left ∨ (tr (lon, lat)).1 = b.right ∨
      (tr (lon, lat)).2 = b.bottom ∨ (tr (lon, lat)).2 = b.top) →
      point_handler_check b tr lon lat vs = .error .pointOutOfBounds) := by
  by_cases hin : (b.left < (tr (lon, lat)).1 ∧ (tr (lon, lat)).1 < b.right ∧
      b.bottom < (tr (lon, lat)).2 ∧ (tr (lon, lat)).2 < b.top)
  · refine ⟨by simp [point_handler_check, hin], ?_⟩
    obtain ⟨c1, c2, c3, c4⟩ := hin
    rintro (h | h | h | h)
    · rw [h] at c1; exact absurd c1 (lt_irrefl _)
    · rw [h] at c2; exact absurd c2 (lt_irrefl _)
    · rw [h] at c3; exact absurd c3 (lt_irrefl _)
    · rw [h] at c4; exact absurd c4 (lt_irrefl _)
  · exact ⟨by simp [point_handler_check, hin], fun _ => by
      simp [point_handler_check, hin]⟩

/-- Witness for C5: an interior point succeeds, a point on the left bound
errors. -/
theorem C5_point_strict_interior_witness :
    point_handler_check ⟨0, 0, 1, 1⟩ id (1/2) (1/2) [5] = .ok [5] ∧
    point_handler_check ⟨0, 0, 1, 1⟩ id 0 (1/2) [5] =
      .error .pointOutOfBounds :=
  ⟨(C5_point_strict_interior ⟨0, 0, 1, 1⟩ id (1/2) (1/2) [5]).1.mpr
      (by norm_num),
   (C5_point_strict_interior ⟨0, 0, 1, 1⟩ id 0 (1/2) [5]).2 (Or.inl rfl)⟩

/-- C6: every ampersand in the WMTS query string embedded in the
capabilities document is XML-escaped as an `&amp;` entity, and the
parameters named SERVICE and REQUEST are removed before templating. -/
theorem C6_wmts_escaping (url : Option String)
    (kwargs : List (String × String)) :
    ampEscaped (wmts_query_string url kwargs).data = true ∧
    (removeReserved kwargs).all
      (fun kv => (kv.1 != "SERVICE") && (kv.1 != "REQUEST")) = true := by
  constructor
  · exact ampEscaped_escapeAmpChars _
  · simp only [List.all_eq_true, removeReserved]
    intro kv hkv
    exact (List.mem_filter.mp hkv).2

/-- C2: with no extension requested, the chosen output format is JPEG
exactly when every entry of the decode-time validity mask is valid, and PNG
as soon as one entry is invalid; the choice depends only on the mask, not
on the post-processing parameters (which are quantified here). -/
theorem C2_default_extension (z x y : ℕ) (ext0 : Option String)
    (rescaleVals : Option (List ℚ)) (tile : Tile) (mask : Mask)
    (hext : extFalsy ext0 = true) :
    (tile_pipeline z x y ext0 rescaleVals tile mask).mimetype =
      if maskAll mask then "image/jpg" else "image/png" := by
  cases hm : maskAll mask with
  | true => simp [tile_pipeline, hext, hm]
  | false => simp [tile_pipeline, hext, hm]

/-- Witness for C2: a mask with one invalid entry resolves to PNG. -/
theorem C2_default_extension_witness :
    (tile_pipeline 0 0 0 none none [[[1]]] [[true, false]]).mimetype =
      "image/png" := by
  rw [C2_default_extension 0 0 0 none none [[[1]]] [[true, false]] rfl]
  rfl

/-- C8, divergence witness: the static tables of `common.py` map the
`pngraw` extension to the PNG driver and the `image/png` MIME type, but the
handler pipeline never consults them: a `pngraw` request is dispatched with
the literal driver string `pngraw` and the MIME type `image/pngraw`. -/
theorem C8_pngraw_divergence :
    (tile_pipeline 0 0 0 (some "pngraw") none [[[1]]] [[true]]).mimetype =
      "image/pngraw" ∧
    driverOf (tile_pipeline 0 0 0 (some "pngraw") none [[[1]]] [[true]]) =
      some "pngraw" ∧
    List.lookup "pngraw" mimetypes = some "image/png" ∧
    List.lookup "pngraw" drivers = some "PNG" :=
  ⟨rfl, rfl, rfl, rfl⟩

/-- Folding an integer code round-trips. -/
theorem intDecode_intCode (z : ℤ) : intDecode (intCode z) = z := by
  unfold intCode intDecode
  by_cases h : 0 ≤ z
  · rw [if_pos h, if_pos (by omega)]
    omega
  · rw [if_neg h, if_neg (by omega)]
    omega

/-- Decoding a rational code consumes it and returns the sample. -/
theorem ratDecode_ratCode (q : ℚ) (r : List ℕ) :
    ratDecode (ratCode q ++ r) = some (q, r) := by
  simp only [ratCode, List.cons_append, List.nil_append, ratDecode,
    intDecode_intCode]
  rw [Rat.num_div_den]

/-- Decoding a mask-entry code consumes it and returns the flag. -/
theorem boolDecode_boolCode (b : Bool) (r : List ℕ) :
    boolDecode (boolCode b ++ r) = some (b, r) := by
  cases b <;> simp [boolCode, boolDecode]

/-- Counted decoding inverts element-wise encoding. -/
theorem decodeCount_flatMap (dec : List ℕ → Option (α × List ℕ))
    (enc : α → List ℕ) (H : ∀ a r, dec (enc a ++ r) = some (a, r)) :
    ∀ (l : List α) (r : List ℕ),
      decodeCount dec l.length (l.flatMap enc ++ r) = some (l, r) := by
  intro l
  induction l with
  | nil => intro r; simp [decodeCount]
  | cons a t ih =>
      intro r
      simp only [List.flatMap_cons, List.length_cons, List.append_assoc]
      rw [decodeCount, H a (t.flatMap enc ++ r)]
      simp [ih r]

/-- Length-prefixed decoding inverts length-prefixed encoding. -/
theorem listDecode_listCode (dec : List ℕ → Option (α × List ℕ))
    (enc : α → List ℕ) (H : ∀ a r, dec (enc a ++ r) = some (a, r))
    (l : List α) (r : List ℕ) :
    listDecode dec (listCode enc l ++ r) = some (l, r) := by
  simp only [listCode, List.cons_append]
  rw [listDecode, decodeCount_flatMap dec enc H l r]

/-- The raw-array serializer round-trips on any tile/mask pair. -/
theorem npyLoad_npySave (t : Tile) (m : Mask) :
    npyLoad (npySave t m) = some (t, m) := by
  have Hrow := listDecode_listCode ratDecode ratCode ratDecode_ratCode
  have Hband := listDecode_listCode _ _ Hrow
  have Htile := listDecode_listCode _ _ Hband
  have Hbrow := listDecode_listCode boolDecode boolCode boolDecode_boolCode
  have Hmask := listDecode_listCode _ _ Hbrow
  unfold npyLoad npySave
  rw [Htile t _]
  have step : listDecode (listDecode boolDecode) (listCode (listCode boolCode) m) =
      some (m, []) := by
    have h2 := Hmask m []
    rwa [List.append_nil] at h2
  simp [step]

/-- C4: the raw-array (`npy`) response body decodes back, byte-exactly, to
the post-processed tile and the mask that were serialized. -/
theorem C4_npy_roundtrip (z x y : ℕ) (rescaleVals : Option (List ℚ))
    (tile : Tile) (mask : Mask) :
    npyLoad (npyBytesOf (tile_pipeline z x y (some "npy") rescaleVals tile mask)) =
      some (postprocessOpt rescaleVals tile mask, mask) := by
  have hbytes : npyBytesOf (tile_pipeline z x y (some "npy") rescaleVals tile mask) =
      npySave (postprocessOpt rescaleVals tile mask) mask := rfl
  rw [hbytes, npyLoad_npySave]

/-- Truncation toward zero agrees with the floor on nonnegative rationals. -/
theorem truncInt_eq_floor (q : ℚ) (h : 0 ≤ q) : truncInt q = ⌊q⌋ := by
  rw [truncInt, Int.tdiv_eq_ediv (Rat.num_nonneg.mpr h) (by positivity),
      Rat.floor_def]

/-- On a rational in the byte range the `uint8` cast is the floor. -/
theorem toUInt8_eq_floor (q : ℚ) (h0 : 0 ≤ q) (h255 : q ≤ 255) :
    toUInt8 q = ⌊q⌋.toNat := by
  have hf0 : 0 ≤ ⌊q⌋ := Int.floor_nonneg.mpr h0
  have hf : ⌊q⌋ ≤ 255 := by
    have h2 : ⌊q⌋ ≤ ⌊(255:ℚ)⌋ := Int.floor_le_floor h255
    simpa using h2
  rw [toUInt8, truncInt_eq_floor q h0, Int.emod_eq_of_lt hf0 (by omega)]

/-- The `uint8` cast of a byte-range rational stays in the byte range. -/
theorem toUInt8_le (q : ℚ) (h0 : 0 ≤ q) (h255 : q ≤ 255) :
    toUInt8 q ≤ 255 := by
  have hf0 : 0 ≤ ⌊q⌋ := Int.floor_nonneg.mpr h0
  have hf : ⌊q⌋ ≤ 255 := by
    have h2 : ⌊q⌋ ≤ ⌊(255:ℚ)⌋ := Int.floor_le_floor h255
    simpa using h2
  rw [toUInt8_eq_floor q h0 h255]
  omega

/-- The `uint8` cast is the identity on byte values. -/
theorem toUInt8_natCast (n : ℕ) (h : n ≤ 255) : toUInt8 (n : ℚ) = n := by
  rw [toUInt8_eq_floor (n : ℚ) (by positivity) (by exact_mod_cast h)]
  simp

/-- The spec-side rescaled value lies in the byte range by construction. -/
theorem specRescale_mem (pr : ℚ × ℚ) (v : ℚ) :
    0 ≤ specRescale pr v ∧ specRescale pr v ≤ 255 :=
  ⟨le_min (le_max_right _ _) (by norm_num), min_le_right _ _⟩

/-- Key refinement: for a well-ordered pair the code formula (clip, shift,
scale) equals the specification formula (linear map, then clamp). -/
theorem linear_rescale_eq_spec (pr : ℚ × ℚ) (v : ℚ) (h : pr.1 < pr.2) :
    linear_rescale v pr = specRescale pr v := by
  obtain ⟨lo, hi⟩ := pr
  simp only at h
  have hd : (0:ℚ) < hi - lo := by linarith
  have hd0 : hi - lo ≠ 0 := ne_of_gt hd
  rcases le_total v lo with hv | hv
  · have hnum : (v - lo) * 255 / (hi - lo) ≤ 0 :=
      div_nonpos_iff.mpr (Or.inr ⟨by nlinarith, by linarith⟩)
    simp only [linear_rescale, specRescale, clip]
    rw [max_eq_right hv, min_eq_left h.le, max_eq_right hnum,
        min_eq_left (by norm_num : (0:ℚ) ≤ 255)]
    simp
  · rcases le_total v hi with hv2 | hv2
    · have h0 : 0 ≤ (v - lo) * 255 / (hi - lo) :=
        div_nonneg (by nlinarith) (by linarith)
      have h255 : (v - lo) * 255 / (hi - lo) ≤ 255 := by
        rw [div_le_iff₀ hd]
        nlinarith
      simp only [linear_rescale, specRescale, clip]
      rw [max_eq_left hv, min_eq_left hv2, max_eq_left h0, min_eq_left h255,
          div_mul_eq_mul_div]
    · have h0 : 0 ≤ (v - lo) * 255 / (hi - lo) :=
        div_nonneg (by nlinarith) (by linarith)
      have h255 : (255:ℚ) ≤ (v - lo) * 255 / (hi - lo) := by
        rw [le_div_iff₀ hd]
        nlinarith
      simp only [linear_rescale, specRescale, clip]
      rw [max_eq_left hv, min_eq_right hv2, max_eq_left h0, min_eq_right h255,
          div_self hd0, one_mul]

/-- Positional access with a default is plain positional access in bounds. -/
theorem getD_of_lt {α : Type _} (l : List α) (d : α) (i : ℕ) (h : i < l.length) :
    l.getD i d = l[i] := by
  simp [List.getD_eq_getElem?_getD, List.getElem?_eq_getElem h]

/-- Elementwise access through `zipWith`, with defaults, in bounds. -/
theorem zipWith_getD {α β γ : Type _} (f : α → β → γ) (as : List α) (bs : List β)
    (i : ℕ) (da : α) (db : β) (dg : γ) (h1 : i < as.length) (h2 : i < bs.length) :
    (List.zipWith f as bs).getD i dg = f (as.getD i da) (bs.getD i db) := by
  have hz : i < (List.zipWith f as bs).length := by
    rw [List.length_zipWith]
    omega
  rw [getD_of_lt _ _ _ hz, getD_of_lt _ _ _ h1, getD_of_lt _ _ _ h2,
      List.getElem_zipWith]

/-- The parsed rescale pair list always has exactly one pair per band. -/
theorem parseRescale_length (vals : List ℚ) (n : ℕ) :
    (parseRescale vals n).length = n := by
  simp only [parseRescale]
  split
  · assumption
  · simp

/-- A nonempty even-length value list chunks into a nonempty pair list. -/
theorem chunkPairs_ne_nil (vals : List ℚ) (hne : vals ≠ [])
    (hev : Even vals.length) : chunkPairs vals ≠ [] := by
  match vals with
  | [] => exact absurd rfl hne
  | [a] => norm_num at hev
  | a :: b :: t => simp [chunkPairs]

/-- Every pair handed to a band comes from the parsed chunk list, whether or
not the broadcast kicked in. -/
theorem parseRescale_mem (vals : List ℚ) (n : ℕ) (hne : vals ≠ [])
    (hev : Even vals.length) :
    ∀ pr ∈ parseRescale vals n, pr ∈ chunkPairs vals := by
  intro pr hpr
  simp only [parseRescale] at hpr
  split at hpr
  · exact hpr
  · rw [List.eq_of_mem_replicate hpr]
    rcases hq : chunkPairs vals with _ | ⟨p, t⟩
    · exact absurd hq (chunkPairs_ne_nil vals hne hev)
    · simp

/-- C3: with a nonempty, even-length, well-ordered rescale value list, the
rescale step preserves the band count, broadcasts the first pair to every
band when the pair count differs from the band count, and produces at every
valid pixel the truncated clamped linear map of the sample (the spec-side
formula `specRescale`), at every invalid pixel zero, with every output
sample in the 8-bit unsigned range. -/
theorem C3_rescale_semantics (vals : List ℚ) (tile : Tile) (mask : Mask)
    (hne : vals ≠ []) (hev : Even vals.length)
    (hlt : ∀ pr ∈ chunkPairs vals, pr.1 < pr.2) :
    (postprocessRescale vals tile mask).length = tile.length ∧
    ((chunkPairs vals).length ≠ tile.length →
      parseRescale vals tile.length =
        List.replicate tile.length ((chunkPairs vals).headD (0, 0))) ∧
    (∀ b r c, b < tile.length → r < (tile.getD b []).length → r < mask.length →
      c < ((tile.getD b []).getD r []).length → c < (mask.getD r []).length →
      (((postprocessRescale vals tile mask).getD b []).getD r []).getD c 0 =
        (if (mask.getD r []).getD c false then
          toUInt8 (specRescale ((parseRescale vals tile.length).getD b (0, 0))
            (((tile.getD b []).getD r []).getD c 0))
        else 0) ∧
      (((postprocessRescale vals tile mask).getD b []).getD r []).getD c 0 ≤ 255) := by
  have hplen : (parseRescale vals tile.length).length = tile.length :=
    parseRescale_length vals tile.length
  refine ⟨?_, ?_, ?_⟩
  · simp [postprocessRescale, List.length_zipWith, hplen]
  · intro hmis
    simp only [parseRescale]
    rw [if_neg hmis]
  · intro b r c hb hr hrm hc hcm
    have hbp : b < (parseRescale vals tile.length).length := by omega
    have hmem : (parseRescale vals tile.length).getD b (0, 0) ∈
        chunkPairs vals := by
      apply parseRescale_mem vals tile.length hne hev
      rw [getD_of_lt _ _ _ hbp]
      exact List.getElem_mem hbp
    have hprlt := hlt _ hmem
    have l1 : (postprocessRescale vals tile mask).getD b [] =
        rescaleBand ((parseRescale vals tile.length).getD b (0, 0))
          (tile.getD b []) mask := by
      unfold postprocessRescale
      exact zipWith_getD (fun band pr => rescaleBand pr band mask) tile
        (parseRescale vals tile.length) b [] (0, 0) [] hb hbp
    have l2 : ((postprocessRescale vals tile mask).getD b []).getD r [] =
        List.zipWith (pixelRescale ((parseRescale vals tile.length).getD b (0, 0)))
          ((tile.getD b []).getD r []) (mask.getD r []) := by
      rw [l1]
      unfold rescaleBand
      exact zipWith_getD _ (tile.getD b []) mask r [] [] [] hr hrm
    have l3 : (((postprocessRescale vals tile mask).getD b []).getD r []).getD c 0 =
        pixelRescale ((parseRescale vals tile.length).getD b (0, 0))
          (((tile.getD b []).getD r []).getD c 0)
          ((mask.getD r []).getD c false) := by
      rw [l2]
      exact zipWith_getD _ _ _ c 0 false 0 hc hcm
    constructor
    · rw [l3]
      unfold pixelRescale
      rw [linear_rescale_eq_spec _ _ hprlt]
    · rw [l3]
      unfold pixelRescale
      cases hm : (mask.getD r []).getD c false
      · simp
      · simp only [if_true]
        rw [linear_rescale_eq_spec _ _ hprlt]
        exact toUInt8_le _ (specRescale_mem _ _).1 (specRescale_mem _ _).2

/-- Witness for C3 at a one-band, one-pixel tile with rescale pair (0, 10)
and value 4: the output sample is the truncated spec-side rescale of 4. -/
theorem C3_rescale_semantics_witness :
    (((postprocessRescale [0, 10] [[[4]]] [[true]]).getD 0 []).getD 0 []).getD 0 0 =
      toUInt8 (specRescale ((parseRescale [0, 10] 1).getD 0 (0, 0)) 4) := by
  have h := (C3_rescale_semantics [0, 10] [[[4]]] [[true]]
    (by simp) (by norm_num)
    (by
      intro pr hpr
      simp only [chunkPairs] at hpr
      simp only [List.mem_singleton] at hpr
      rw [hpr]
      norm_num)).2.2 0 0 0 (by norm_num) (by norm_num) (by norm_num)
    (by norm_num) (by norm_num)
  simpa using h.1

/-- With the identity pair (0, 255) the rescale arithmetic is a pure clamp. -/
theorem linear_rescale_id (v : ℚ) : linear_rescale v (0, 255) = clip v 0 255 := by
  show (clip v 0 255 - 0) / (255 - 0) * 255 = clip v 0 255
  rw [sub_zero, sub_zero, div_mul_cancel₀ _ (by norm_num : (255:ℚ) ≠ 0)]

/-- The clamp to the byte range lands in the byte range. -/
theorem clip_byte_mem (v : ℚ) : 0 ≤ clip v 0 255 ∧ clip v 0 255 ≤ 255 :=
  ⟨le_min (le_max_right _ _) (by norm_num), min_le_right _ _⟩

/-- One pixel of the identity-bounds rescale is a fixed point under
re-application. -/
theorem pixelRescale_id_fix (v : ℚ) (m : Bool) :
    pixelRescale (0, 255) ((pixelRescale (0, 255) v m : ℕ) : ℚ) m =
      pixelRescale (0, 255) v m := by
  cases m
  · simp [pixelRescale]
  · simp only [pixelRescale, if_true]
    set k := toUInt8 (linear_rescale v (0, 255)) with hk
    have hkle : k ≤ 255 := by
      rw [hk, linear_rescale_id]
      exact toUInt8_le _ (clip_byte_mem v).1 (clip_byte_mem v).2
    have h2 : linear_rescale ((k : ℕ) : ℚ) (0, 255) = (k : ℚ) := by
      rw [linear_rescale_id]
      unfold clip
      rw [max_eq_left (by positivity), min_eq_left (by exact_mod_cast hkle)]
    rw [h2, toUInt8_natCast k hkle]

/-- One row of the identity-bounds rescale is a fixed point under
re-application. -/
theorem rescaleRow_id_fix : ∀ (row : List ℚ) (mrow : List Bool),
    List.zipWith (pixelRescale (0, 255))
        ((List.zipWith (pixelRescale (0, 255)) row mrow).map (Nat.cast : ℕ → ℚ))
        mrow =
      List.zipWith (pixelRescale (0, 255)) row mrow := by
  intro row
  induction row with
  | nil => intro mrow; simp
  | cons v vt ih =>
      intro mrow
      cases mrow with
      | nil => simp
      | cons m mt =>
          simp only [List.zipWith_cons_cons, List.map_cons,
            pixelRescale_id_fix, ih]

/-- One band of the identity-bounds rescale is a fixed point under
re-application. -/
theorem rescaleBand_id_fix : ∀ (band : Band) (mask : Mask),
    List.zipWith (List.zipWith (pixelRescale (0, 255)))
        ((List.zipWith (List.zipWith (pixelRescale (0, 255))) band mask).map
          (fun row => row.map (Nat.cast : ℕ → ℚ))) mask =
      List.zipWith (List.zipWith (pixelRescale (0, 255))) band mask := by
  intro band
  induction band with
  | nil => intro mask; simp
  | cons row bt ih =>
      intro mask
      cases mask with
      | nil => simp
      | cons mrow mt =>
          simp only [List.zipWith_cons_cons, List.map_cons,
            rescaleRow_id_fix, ih]

/-- A two-value rescale list broadcasts its single pair to every band. -/
theorem parseRescale_pair (a b : ℚ) (n : ℕ) :
    parseRescale [a, b] n = List.replicate n (a, b) := by
  have hc : chunkPairs [a, b] = [(a, b)] := rfl
  simp only [parseRescale, hc]
  split
  · rename_i h
    simp only [List.length_singleton] at h
    subst h
    rfl
  · rfl

/-- Zipping against a same-length replicated list is a map. -/
theorem zipWith_replicate_len {α β γ : Type _} (f : α → β → γ) (p : β) :
    ∀ l : List α, List.zipWith f l (List.replicate l.length p) =
      l.map (fun a => f a p) := by
  intro l
  induction l with
  | nil => simp
  | cons a t ih => simp [List.replicate_succ, ih]

/-- The rescale branch with a single pair maps that pair over every band. -/
theorem postprocessRescale_pair (a b : ℚ) (tile : Tile) (mask : Mask) :
    postprocessRescale [a, b] tile mask =
      tile.map (fun band => rescaleBand (a, b) band mask) := by
  unfold postprocessRescale
  rw [parseRescale_pair]
  exact zipWith_replicate_len _ _ tile

/-- C7 counterexample: with the rescale string `0,10000` (identical bounds
both times, a fully valid mask) re-applying the rescale step to the
already-rescaled tile does not reproduce it: the sample 10000 first maps to
255, and re-application maps 255 to 6. -/
theorem C7_counterexample :
    postprocessRescale [0, 10000]
        (castTile (postprocessRescale [0, 10000] [[[10000]]] [[true]])) [[true]] ≠
      postprocessRescale [0, 10000] [[[10000]]] [[true]] := by
  have hclip1 : clip 10000 0 10000 = 10000 := by
    unfold clip
    rw [max_eq_left (by norm_num), min_eq_left (by norm_num)]
  have hlr1 : linear_rescale 10000 (0, 10000) = 255 := by
    show (clip 10000 0 10000 - 0) / (10000 - 0) * 255 = 255
    rw [hclip1]
    norm_num
  have ht1 : toUInt8 (255 : ℚ) = 255 := by
    have h := toUInt8_natCast 255 (le_refl 255)
    simpa using h
  have e1 : postprocessRescale [0, 10000] [[[10000]]] [[true]] = [[[255]]] := by
    have hc : chunkPairs [0, 10000] = [(0, 10000)] := rfl
    simp [postprocessRescale, parseRescale, hc, rescaleBand, pixelRescale,
      hlr1, ht1]
  have hclip2 : clip (255 : ℚ) 0 10000 = (255 : ℚ) := by
    unfold clip
    rw [max_eq_left (by norm_num), min_eq_left (by norm_num)]
  have hlr2 : linear_rescale (255 : ℚ) (0, 10000) = 2601 / 400 := by
    show (clip (255 : ℚ) 0 10000 - 0) / (10000 - 0) * 255 = 2601 / 400
    rw [hclip2]
    norm_num
  have ht2 : toUInt8 (2601 / 400 : ℚ) = 6 := by
    rw [toUInt8_eq_floor _ (by norm_num) (by norm_num)]
    have h1 : ((2601 : ℤ) : ℚ) / ((400 : ℕ) : ℚ) = (2601 / 400 : ℚ) := by
      norm_num
    rw [← h1, Rat.floor_intCast_div_natCast]
    decide
  have e2 : postprocessRescale [0, 10000] [[[(255 : ℚ)]]] [[true]] =
      [[[6]]] := by
    have hc : chunkPairs [0, 10000] = [(0, 10000)] := rfl
    simp [postprocessRescale, parseRescale, hc, rescaleBand, pixelRescale,
      hlr2, ht2]
  rw [e1]
  have hcast : castTile [[[255]]] = [[[(255 : ℚ)]]] := by
    simp [castTile]
  rw [hcast, e2]
  decide

/-- C7 amended: re-applying the rescale step is idempotent exactly in the
regime where the bounds fix the byte range: with the pair (0, 255) (for any
tile and any mask) the second application reproduces the first.  For other
bounds the linear map is applied again to the already-mapped samples, so
idempotence fails (see the counterexample). -/
theorem C7_rescale_identity_idempotent (tile : Tile) (mask : Mask) :
    postprocessRescale [0, 255]
        (castTile (postprocessRescale [0, 255] tile mask)) mask =
      postprocessRescale [0, 255] tile mask := by
  rw [postprocessRescale_pair, postprocessRescale_pair]
  simp only [castTile, List.map_map]
  apply List.map_congr_left
  intro band _
  exact rescaleBand_id_fix band mask

/-- Decimal-run value accumulator, matching the scanner: the value of the
digit list appended to a running accumulator. -/
def valFold (l : List Char) (a : ℕ) : ℕ :=
  l.foldl (fun x c => x * 10 + digitVal c) a

/-- The ten digit characters are digits. -/
theorem digitChar_isDigit (d : ℕ) (h : d < 10) : (digitChar d).isDigit = true := by
  interval_cases d <;> decide

/-- The numeric value of a digit character is its digit. -/
theorem digitVal_digitChar (d : ℕ) (h : d < 10) : digitVal (digitChar d) = d := by
  interval_cases d <;> decide

/-- Scanning a digit run extends the pending accumulator. -/
theorem findIndexes_digits : ∀ (l : List Char), l.all Char.isDigit = true →
    ∀ (a : ℕ) (s : List Char),
      findIndexes (l ++ s) (some a) = findIndexes s (some (valFold l a)) := by
  intro l
  induction l with
  | nil => intro _ a s; rfl
  | cons c t ih =>
      intro hall a s
      simp only [List.all_cons, Bool.and_eq_true] at hall
      simp only [List.cons_append, findIndexes, hall.1, if_true,
        List.append_eq]
      rw [ih hall.2]
      rfl

/-- The rendering accumulator is a plain append. -/
theorem renderNatAux_append (n : ℕ) : ∀ acc, renderNatAux n acc = renderNat n ++ acc := by
  induction n using Nat.strong_induction_on with
  | _ n ih =>
      intro acc
      by_cases h : n < 10
      · rw [renderNatAux, if_pos h, renderNat, renderNatAux, if_pos h]
        rfl
      · have hlt : n / 10 < n := Nat.div_lt_self (by omega) (by omega)
        have h1 : renderNatAux n acc =
            renderNat (n / 10) ++ (digitChar (n % 10) :: acc) := by
          rw [renderNatAux, if_neg h]
          exact ih (n / 10) hlt _
        have h2 : renderNat n = renderNat (n / 10) ++ [digitChar (n % 10)] := by
          rw [renderNat, renderNatAux, if_neg h]
          exact ih (n / 10) hlt _
        rw [h1, h2, List.append_assoc]
        rfl

/-- Rendering a single digit. -/
theorem renderNat_small (n : ℕ) (h : n < 10) : renderNat n = [digitChar n] := by
  rw [renderNat, renderNatAux, if_pos h]

/-- Rendering a multi-digit number peels the last digit. -/
theorem renderNat_step (n : ℕ) (h : ¬ n < 10) :
    renderNat n = renderNat (n / 10) ++ [digitChar (n % 10)] := by
  conv_lhs => rw [renderNat, renderNatAux, if_neg h]
  rw [renderNatAux_append]

/-- Every rendered character is a digit. -/
theorem renderNat_all_digits (n : ℕ) : (renderNat n).all Char.isDigit = true := by
  induction n using Nat.strong_induction_on with
  | _ n ih =>
      by_cases h : n < 10
      · rw [renderNat_small n h]
        simp [digitChar_isDigit n h]
      · rw [renderNat_step n h]
        have hlt : n / 10 < n := Nat.div_lt_self (by omega) (by omega)
        simp [List.all_append, ih (n / 10) hlt,
          digitChar_isDigit (n % 10) (Nat.mod_lt n (by omega))]

/-- A rendering is never empty. -/
theorem renderNat_ne_nil (n : ℕ) : renderNat n ≠ [] := by
  by_cases h : n < 10
  · rw [renderNat_small n h]
    simp
  · rw [renderNat_step n h]
    simp

/-- The accumulator value over an appended final digit. -/
theorem valFold_append_single (l : List Char) (c : Char) (a : ℕ) :
    valFold (l ++ [c]) a = valFold l a * 10 + digitVal c := by
  simp [valFold, List.foldl_append]

/-- The accumulated value of a rendering is the rendered number. -/
theorem valFold_renderNat (n : ℕ) : ∀ a : ℕ,
    valFold (renderNat n) a = a * 10 ^ (renderNat n).length + n := by
  induction n using Nat.strong_induction_on with
  | _ n ih =>
      intro a
      by_cases h : n < 10
      · rw [renderNat_small n h]
        simp [valFold, digitVal_digitChar n h]
      · have hlt : n / 10 < n := Nat.div_lt_self (by omega) (by omega)
        have hlen : (renderNat n).length = (renderNat (n / 10)).length + 1 := by
          rw [renderNat_step n h]
          simp
        rw [hlen, pow_succ, renderNat_step n h, valFold_append_single,
            ih (n / 10) hlt a,
            digitVal_digitChar (n % 10) (Nat.mod_lt n (by omega))]
        have hm : 10 * (n / 10) + n % 10 = n := Nat.div_add_mod n 10
        calc (a * 10 ^ (renderNat (n / 10)).length + n / 10) * 10 + n % 10
            = a * (10 ^ (renderNat (n / 10)).length * 10) +
              (10 * (n / 10) + n % 10) := by ring
          _ = a * (10 ^ (renderNat (n / 10)).length * 10) + n := by rw [hm]

/-- Scanning a rendered number from a clean state yields exactly it. -/
theorem findIndexes_renderNat (n : ℕ) (s : List Char) :
    findIndexes (renderNat n ++ s) none = findIndexes s (some n) := by
  rcases hr : renderNat n with _ | ⟨c, t⟩
  · exact absurd hr (renderNat_ne_nil n)
  · have hall : (c :: t).all Char.isDigit = true := by
      rw [← hr]
      exact renderNat_all_digits n
    simp only [List.all_cons, Bool.and_eq_true] at hall
    have hv : valFold (c :: t) 0 = n := by
      have h1 := valFold_renderNat n 0
      rw [hr] at h1
      simpa using h1
    have h0 : valFold (c :: t) 0 = valFold t (digitVal c) := by
      simp [valFold]
    simp only [List.cons_append, findIndexes, hall.1, if_true,
      List.append_eq]
    rw [findIndexes_digits t hall.2 (digitVal c) s, ← h0, hv]

/-- C9 counterexample: the query value `0` parses to the single index 0,
which is not a positive integer. -/
theorem C9_zero_not_positive :
    parseIndexes "0" = [0] ∧ ¬ (∀ n ∈ parseIndexes "0", 0 < n) := by
  constructor
  · decide
  · decide

/-- C9 amended: index parsing yields the digit runs of the string, in
order, preserving duplicates (and each entry is a nonnegative integer): the
canonical comma-separated rendering of any index list, duplicates included,
parses back to exactly that list. -/
theorem C9_indexes_order_preserving : ∀ l : List ℕ, parseIndexes (renderIndexes l) = l := by
  intro l
  induction l with
  | nil => rfl
  | cons n t ih =>
      cases t with
      | nil =>
          show findIndexes (joinComma [renderNat n]) none = [n]
          have hj : joinComma [renderNat n] = renderNat n := rfl
          rw [hj, ← List.append_nil (renderNat n), findIndexes_renderNat n []]
          rfl
      | cons m t2 =>
          show findIndexes
            (joinComma (renderNat n :: renderNat m :: t2.map renderNat)) none =
            n :: m :: t2
          have hj : joinComma (renderNat n :: renderNat m :: t2.map renderNat) =
              renderNat n ++
                Char.ofNat 44 :: joinComma (renderNat m :: t2.map renderNat) := rfl
          have hcomma : (Char.ofNat 44).isDigit = false := by decide
          have ih2 : findIndexes
              (joinComma (renderNat m :: t2.map renderNat)) none = m :: t2 := ih
          rw [hj, findIndexes_renderNat n _]
          simp only [findIndexes, hcomma, Bool.false_eq_true, if_false, ih2]

end CogeoTiler
